import Mathlib

/-!
Shallow embedding of the relevance-selection and context-assembly engine of
the tweet-bot repository (`src/index.ts`, class `AIService`), together with
proofs of the frozen claims about it.

Modelling conventions:
* JS strings are modelled by `String`/`List Char`; all inputs of interest are
  ASCII, so `String.toLower` models `String.prototype.toLowerCase` and
  `Char.isAlphanum || c = '_'` models the regex class `\w`.
* JS numbers are modelled by `ℚ` (scores) and `Int` (millisecond timestamps,
  `Date.getTime()`); `Date.now()` is an explicit `now : Int` parameter.
* `Array.prototype.sort` with a consistent comparator is a stable sort
  (ES2019); it is modelled by a stable insertion sort on a key.
* The raw JSON store read by `fs.readFileSync` is an explicit
  `raw : Option String` parameter; `none` models any read failure
  (the `try/catch` path).
-/

/-- Model of the regex class `\w` (ASCII word character). -/
def isWordChar (c : Char) : Bool := c.isAlphanum || c = '_'

/-- Model of `String.prototype.toLowerCase` on the ASCII inputs of interest
(character-wise lowering). -/
def strToLower (s : String) : String := (s.toList.map Char.toLower).asString

/-- Model of `String.prototype.startsWith`. -/
def strStartsWith (s pre : String) : Bool := pre.toList.isPrefixOf s.toList

/-- Substring test on character lists: does `pat` occur contiguously in `text`?
Models `String.prototype.includes`. -/
def listContains (text pat : List Char) : Bool :=
  match text with
  | [] => pat.isEmpty
  | _ :: rest => pat.isPrefixOf text || listContains rest pat

/-- Model of `text.includes(pat)` on strings. -/
def containsSub (text pat : String) : Bool := listContains text.toList pat.toList

/-- Single-pass tokenizer collecting maximal runs of word characters
(`acc` is the current run, reversed). Models `message.match(/\b\w+\b/g)`:
a `\b` at the edge of a maximal `\w`-run always holds, so the global
matches are exactly the maximal word-character runs. -/
def tokAcc (acc : List Char) : List Char → List String
  | [] => if acc.isEmpty then [] else [acc.reverse.asString]
  | c :: rest =>
    if isWordChar c then tokAcc (c :: acc) rest
    else (if acc.isEmpty then [] else [acc.reverse.asString]) ++ tokAcc [] rest

/-- Word tokens of a string (the `words` of `extractSearchTerms`). -/
def wordTokens (s : String) : List String := tokAcc [] s.toList

/-- Run-based formulation of the same tokenization (maximal `\w`-runs as
`takeWhile`/`dropWhile` blocks), used for the spec-level term-set claims. -/
def tokenizeChars : List Char → List String
  | [] => []
  | c :: rest =>
    if isWordChar c then
      (c :: rest.takeWhile isWordChar).asString :: tokenizeChars (rest.dropWhile isWordChar)
    else
      tokenizeChars rest
termination_by l => l.length
decreasing_by
  · simp only [List.length_cons]
    exact Nat.lt_succ_of_le (List.dropWhile_sublist isWordChar).length_le
  · simp

/-- Scanner for the global regex `/"([^"]+)"/g`: outside a quote
(`state = none`) a quote character opens a candidate match; inside
(`state = some acc`, reversed content so far) a quote either closes a
nonempty match (emitted, scan resumes after it) or — when the content is
still empty, i.e. two adjacent quotes — re-opens at the second quote,
exactly as the regex engine advances past a failed match position. An
unclosed trailing quote yields no match. -/
def quotedScan (state : Option (List Char)) : List Char → List String
  | [] => []
  | c :: rest =>
    match state with
    | none => if c = '"' then quotedScan (some []) rest else quotedScan none rest
    | some acc =>
      if c = '"' then
        if acc.isEmpty then quotedScan (some []) rest
        else acc.reverse.asString :: quotedScan none rest
      else quotedScan (some (c :: acc)) rest

/-- Model of `message.match(/"([^"]+)"/g)?.map(p => p.slice(1, -1)) || []`. -/
def extractQuoted (s : String) : List String := quotedScan none s.toList

/-- First-occurrence deduplication with an accumulator of already-seen
strings; models iteration order of `[...new Set(list)]`. -/
def dedupFirstAux (seen : List String) : List String → List String
  | [] => []
  | t :: rest =>
    if t ∈ seen then dedupFirstAux seen rest
    else t :: dedupFirstAux (t :: seen) rest

/-- Model of `[...new Set(list)]`: keep the first occurrence of each string. -/
def dedupFirst (l : List String) : List String := dedupFirstAux [] l

/-- Worker for `countOcc`: scan position by position; `skip` positions
remaining inside the previous match are not tested (non-overlapping global
matching, scan resumes after each match). -/
def countOccAux (pat : List Char) (skip : Nat) : List Char → Nat
  | [] => 0
  | c :: rest =>
    if skip ≠ 0 then countOccAux pat (skip - 1) rest
    else if pat.isEmpty then countOccAux pat 0 rest
    else if pat.isPrefixOf (c :: rest) then countOccAux pat (pat.length - 1) rest + 1
    else countOccAux pat 0 rest

/-- Number of non-overlapping, leftmost matches of the literal pattern `pat`
in `text`; models `(text.match(new RegExp(escaped, "gi")) || []).length` for
a nonempty pattern (the code only ever counts nonempty terms). -/
def countOcc (pat : List Char) (text : List Char) : Nat := countOccAux pat 0 text

/-- The regex word-boundary assertion `\b` at character position `p` of
`text`: exactly one side of the position is a word character. -/
def wordBoundaryAt (text : List Char) (p : Nat) : Bool :=
  let before :=
    match text.get? (p - 1) with
    | some c => decide (0 < p) && isWordChar c
    | none => false
  let after :=
    match text.get? p with
    | some c => isWordChar c
    | none => false
  before != after

/-- Model of `new RegExp("\\b" + escaped + "\\b", "gi").test(text)` for a
literal (escaped) pattern: some occurrence of `pat` has word boundaries at
both ends. -/
def hasWordBoundaryMatch (text pat : String) : Bool :=
  let t := text.toList
  let p := pat.toList
  (List.range (t.length + 1)).any fun i =>
    p.isPrefixOf (t.drop i) && wordBoundaryAt t i && wordBoundaryAt t (i + p.length)

/-- Record of the in-memory corpus (interface `Tweet` of `index.ts`);
`timestamp` is the epoch-millisecond value of the `Date`. -/
structure Tweet where
  id : String
  text : String
  timestamp : Int
  author : String
  likes : Nat
  retweets : Nat
  replies : Nat
  url : Option String
deriving DecidableEq

instance : Inhabited Tweet := ⟨⟨"", "", 0, "", 0, 0, 0, none⟩⟩

/-- The fixed stop-word set of `extractSearchTerms`. -/
def stopWords : List String :=
  ["the", "a", "an", "and", "or", "but", "in", "on", "at", "to", "for", "of",
   "with", "by", "is", "are", "was", "were", "be", "been", "have", "has",
   "had", "do", "does", "did", "will", "would", "could", "should", "may",
   "might", "can", "about", "what", "when", "where", "why", "how", "who",
   "which", "that", "this", "these", "those", "i", "you", "he", "she", "it",
   "we", "they", "me", "him", "her", "us", "them"]

/-- The semantic-expansion terms pushed by the four expansion rules of
`extractSearchTerms`, in source order. -/
def expansionTerms (message : String) : List String :=
  (if containsSub message "release" || containsSub message "launch" ||
      containsSub message "drop" || containsSub message "when" then
    ["introducing", "coming", "going live", "launch", "release", "drop",
     "available", "announcing", "debut"]
   else []) ++
  (if containsSub message "ninja" then ["ninja", "kurosun ninja"] else []) ++
  (if containsSub message "samurai" then ["samurai", "kurosun samurai"] else []) ++
  (if containsSub message "hana" then ["hana"] else [])

/-- Model of `AIService.extractSearchTerms`: quoted phrases of the lowercased
message, then expansion terms, then the word tokens of the whole lowercased
message that are longer than 2 characters and not stop words; deduplicated
keeping first occurrences. -/
def extractSearchTerms (userMessage : String) : List String :=
  let message := strToLower userMessage
  let words := wordTokens message
  let quotedPhrases := extractQuoted message
  let searchTerms :=
    quotedPhrases ++ expansionTerms message ++
      words.filter (fun w => decide (w.length > 2) && !stopWords.contains w)
  dedupFirst searchTerms

/-- Quoted phrases of the original (raw) message, lowercased; models the
`quotedPhrases` computed inside `calculateRelevanceScore`. -/
def quotedPhrasesLower (originalMessage : String) : List String :=
  (extractQuoted originalMessage).map strToLower

/-- Exact quoted-phrase component of the relevance score: +100 per phrase of
the original message contained in the lowercased tweet text. -/
def phraseScore (tweetText : String) (originalMessage : String) : ℚ :=
  ((quotedPhrasesLower originalMessage).map
    (fun phrase => if containsSub tweetText phrase then (100 : ℚ) else 0)).sum

/-- Per-term component of the relevance score: for each search term contained
in the lowercased tweet text, +10 base, +5 per occurrence beyond the first,
and +5 more when some occurrence is a whole-word match. -/
def termScore (tweetText : String) (searchTerms : List String) : ℚ :=
  (searchTerms.map (fun term =>
    let termLower := strToLower term
    if containsSub tweetText termLower then
      (10 : ℚ) + ((countOcc termLower.toList tweetText.toList : ℚ) - 1) * 5 +
        (if hasWordBoundaryMatch tweetText termLower then (5 : ℚ) else 0)
    else 0)).sum

/-- Engagement component: (likes + retweets + replies) / 10, capped at 20. -/
def engagementScore (tweet : Tweet) : ℚ :=
  min ((((tweet.likes + tweet.retweets + tweet.replies : ℕ)) : ℚ) / 10) 20

/-- Recency component: for tweets younger than 30 days,
max(0, 2 − age_days / 15); `now` is the current epoch-millisecond time. -/
def recencyScore (tweet : Tweet) (now : Int) : ℚ :=
  let daysSincePosted : ℚ := ((now - tweet.timestamp : Int) : ℚ) / (1000 * 60 * 60 * 24)
  if daysSincePosted < 30 then max 0 (2 - daysSincePosted / 15) else 0

/-- Model of `AIService.calculateRelevanceScore`: the additive sum of the
phrase, term, engagement and recency components, each computed on the
lowercased tweet text exactly as in the source. -/
def calculateRelevanceScore (tweet : Tweet) (searchTerms : List String)
    (originalMessage : String) (now : Int) : ℚ :=
  let tweetText := strToLower tweet.text
  phraseScore tweetText originalMessage + termScore tweetText searchTerms +
    engagementScore tweet + recencyScore tweet now

/-- JS whitespace characters matched by the regex class `\s` (ASCII part;
the raw store is ASCII JSON text). -/
def isJsSpace (c : Char) : Bool :=
  c = ' ' || c = '\t' || c = '\n' || c = '\r' || c = '\x0b' || c = '\x0c'

/-- Attempt to match the regex `"id":\s*"([^"]+)"` at the start of the
character list, returning the captured identifier. -/
def matchIdAt (l : List Char) : Option String :=
  if ("\"id\":".toList).isPrefixOf l then
    let afterColon := (l.drop 5).dropWhile isJsSpace
    match afterColon with
    | '"' :: rest =>
      let content := rest.takeWhile (fun d => d ≠ '"')
      if content.isEmpty then none
      else
        match rest.drop content.length with
        | '"' :: _ => some content.asString
        | _ => none
    | _ => none
  else none

/-- First match of `line.match(/"id":\s*"([^"]+)"/)` scanning left to right. -/
def firstIdMatch (line : String) : Option String := go line.toList
where
  go : List Char → Option String
    | [] => none
    | c :: rest =>
      match matchIdAt (c :: rest) with
      | some s => some s
      | none => go rest

/-- Worker for `splitLines` (`acc` is the current line, reversed). -/
def splitLinesAux (acc : List Char) : List Char → List String
  | [] => [acc.reverse.asString]
  | c :: rest =>
    if c = '\n' then acc.reverse.asString :: splitLinesAux [] rest
    else splitLinesAux (c :: acc) rest

/-- Model of `fileContent.split("\n")`. -/
def splitLines (s : String) : List String := splitLinesAux [] s.toList

/-- Does any search term occur (case-insensitively) in the line? Models
`searchTerms.some(term => line.includes(term.toLowerCase()))` where `line`
is already lowercased. -/
def lineHasMatch (searchTerms : List String) (line : String) : Bool :=
  searchTerms.any (fun term => containsSub (strToLower line) (strToLower term))

/-- Model of `AIService.grepSearchJsonFile`: split the raw store into lines;
for every line containing a search term, collect every identifier matched by
the id-regex in the ±20-line neighbourhood. `raw = none` models a failed
`fs.readFileSync` (the `catch` branch), which yields the empty match set.
The JS `Set` is modelled by a list used only through membership. -/
def grepSearchJsonFile (raw : Option String) (searchTerms : List String) : List String :=
  match raw with
  | none => []
  | some fileContent =>
    let lines := splitLines fileContent
    lines.enum.flatMap (fun p =>
      if lineHasMatch searchTerms p.2 then
        let contextStart := p.1 - 20
        let contextEnd := min lines.length (p.1 + 20)
        ((lines.drop contextStart).take (contextEnd - contextStart)).filterMap firstIdMatch
      else [])

/-- Stable descending insertion by key: an element is placed after every
strictly greater key and after earlier-inserted equal keys. -/
def insertByDesc {α β : Type} [LinearOrder β] (key : α → β) (a : α) : List α → List α
  | [] => [a]
  | u :: rest => if key a < key u then u :: insertByDesc key a rest else a :: u :: rest

/-- Stable sort, descending by key; models ES2019 `Array.prototype.sort`
with comparator `(x, y) => key(y) - key(x)`. -/
def sortByDesc {α β : Type} [LinearOrder β] (key : α → β) : List α → List α
  | [] => []
  | a :: l => insertByDesc key a (sortByDesc key l)

/-- Stable ascending insertion by key: an element is placed after every
strictly smaller key and before later-inserted equal keys. -/
def insertByAsc {α β : Type} [LinearOrder β] (key : α → β) (a : α) : List α → List α
  | [] => [a]
  | u :: rest => if key u < key a then u :: insertByAsc key a rest else a :: u :: rest

/-- Stable sort, ascending by key; models ES2019 `Array.prototype.sort`
with comparator `(x, y) => key(x) - key(y)`. -/
def sortByAsc {α β : Type} [LinearOrder β] (key : α → β) : List α → List α
  | [] => []
  | a :: l => insertByAsc key a (sortByAsc key l)

/-- Scored candidates of `searchAllTweets`: every tweet whose relevance score,
plus the +50 grep boost when its id is in the raw match set, is strictly
positive, paired with that final score, in corpus order. -/
def searchResults (userMessage : String) (allTweets : List Tweet)
    (raw : Option String) (now : Int) : List (Tweet × ℚ) :=
  let searchTerms := extractSearchTerms userMessage
  let grepMatches := grepSearchJsonFile raw searchTerms
  allTweets.filterMap (fun tweet =>
    let score := calculateRelevanceScore tweet searchTerms userMessage now +
      (if grepMatches.contains tweet.id then 50 else 0)
    if 0 < score then some (tweet, score) else none)

/-- Top-150 candidates by final score (stable descending sort, then
truncation), stripped of their scores. -/
def topRelevantTweets (userMessage : String) (allTweets : List Tweet)
    (raw : Option String) (now : Int) : List Tweet :=
  (((sortByDesc (fun r => r.2) (searchResults userMessage allTweets raw now)).take 150).map
    (fun r => r.1))

/-- Worker of `deduplicateTweets`: keep a tweet iff its id has not been seen;
`seen` models the JS `Set<string>`. -/
def dedupGo (seen : List String) : List Tweet → List Tweet
  | [] => []
  | t :: rest =>
    if t.id ∈ seen then dedupGo seen rest
    else t :: dedupGo (t.id :: seen) rest

/-- Model of `AIService.deduplicateTweets`: first occurrence of each id wins. -/
def deduplicateTweets (tweets : List Tweet) : List Tweet := dedupGo [] tweets

/-- Model of `AIService.searchAllTweets`: recency window (first 75) followed
by the top-150 relevant tweets, deduplicated by id, re-sorted by timestamp
descending (stable) and truncated to 200. -/
def searchAllTweets (userMessage : String) (allTweets : List Tweet)
    (raw : Option String) (now : Int) : List Tweet :=
  let recentTweets := allTweets.take 75
  let combinedTweets :=
    deduplicateTweets (recentTweets ++ topRelevantTweets userMessage allTweets raw now)
  (sortByDesc (fun t => t.timestamp) combinedTweets).take 200

/-- Model of `AIService.buildSmartContext`. `fmtDate` is the
locale-dependent `Date.toLocaleDateString` of the host, passed as an oracle;
`mainHandle` is the configured handle. -/
def buildSmartContext (userMessage : String) (tweets : List Tweet)
    (raw : Option String) (now : Int) (mainHandle : String)
    (fmtDate : Int → String) : String :=
  if tweets.isEmpty then "No tweets available in memory."
  else
    let relevantTweets := searchAllTweets userMessage tweets raw now
    let tweetTexts := String.intercalate "\n\n" (relevantTweets.map (fun tweet =>
      let dateStr := fmtDate tweet.timestamp
      let engagement := "[" ++ toString tweet.likes ++ " likes, " ++
        toString tweet.retweets ++ " RTs, " ++ toString tweet.replies ++ " replies]"
      let url := match tweet.url with | some u => " URL: " ++ u | none => ""
      "[" ++ dateStr ++ "] " ++ tweet.text ++ " " ++ engagement ++ url))
    let totalTweets := tweets.length
    let dateRange :=
      if tweets.length > 0 then
        fmtDate (tweets.getLast!).timestamp ++ " to " ++ fmtDate (tweets.head!).timestamp
      else "No date range"
    let searchTerms := extractSearchTerms userMessage
    let searchDebugInfo :=
      if searchTerms.length > 0 then
        "\nSearch terms used: " ++ String.intercalate ", " searchTerms
      else ""
    "Complete Twitter history from @" ++ mainHandle ++ " (" ++ toString totalTweets ++
      " total tweets from " ++ dateRange ++ "):\n\nSearched through ALL " ++
      toString totalTweets ++ " tweets - Including " ++ toString relevantTweets.length ++
      " most relevant tweets" ++ searchDebugInfo ++ ":\n\n" ++ tweetTexts

/-- Parsed entry of the on-disk Twitter JSON export (interface `JsonTweet`);
`created_at` is modelled by its parsed epoch-millisecond value. -/
structure JsonTweet where
  id : String
  created_at : Int
  full_text : String
  screen_name : String
  name : String
  favorite_count : Nat
  retweet_count : Nat
  reply_count : Nat
  url : String
deriving DecidableEq

/-- Mutable state of `AIService` relevant to the corpus: the cached tweets,
the parsed JSON data, the loaded flag and the configuration. -/
structure AIService where
  tweets : List Tweet
  jsonData : List JsonTweet
  isLoaded : Bool
  mainHandle : String
  retweetHandles : List String
deriving DecidableEq

/-- Model of `AIService.convertJsonTweetToTweet`. -/
def convertJsonTweetToTweet (mainHandle : String) (jsonTweet : JsonTweet) : Tweet :=
  { id := jsonTweet.id
    text := jsonTweet.full_text
    timestamp := jsonTweet.created_at
    author := if jsonTweet.screen_name = "" then mainHandle else jsonTweet.screen_name
    likes := jsonTweet.favorite_count
    retweets := jsonTweet.retweet_count
    replies := jsonTweet.reply_count
    url := some ("https://twitter.com/" ++ mainHandle ++ "/status/" ++ jsonTweet.id) }

/-- Model of `AIService.getFallbackTweets`: the built-in two-record corpus
installed when loading the JSON file fails. -/
def getFallbackTweets (mainHandle : String) (now : Int) : List Tweet :=
  [{ id := "fallback_1"
     text := "Building amazing AI experiences with cutting-edge technology!"
     timestamp := now
     author := mainHandle
     likes := 0, retweets := 0, replies := 0, url := none },
   { id := "fallback_2"
     text := "Innovation in AI is accelerating faster than ever before."
     timestamp := now - 3600000
     author := mainHandle
     likes := 0, retweets := 0, replies := 0, url := none }]

/-- The retweet filter of `loadJsonData`: keep every tweet with nonempty text
that is not a retweet, plus retweets from the configured handles. -/
def keepJsonTweet (retweetHandles : List String) (tweet : JsonTweet) : Bool :=
  if tweet.full_text = "" then false
  else if !strStartsWith tweet.full_text "RT @" then true
  else retweetHandles.any (fun handle =>
    strStartsWith (strToLower tweet.full_text) ("rt @" ++ handle ++ ":"))

/-- Model of `AIService.loadJsonData`. `raw = some data` models a successful
read and parse of the JSON file, `raw = none` any failure (the `catch`
branch, which installs the fallback corpus). `now` models `Date.now()` /
`new Date()` at load time. -/
def loadJsonData (s : AIService) (raw : Option (List JsonTweet)) (now : Int) : AIService :=
  if s.isLoaded then s
  else
    match raw with
    | some data =>
      { s with
        jsonData := data
        tweets := sortByDesc (fun t => t.timestamp)
          ((data.filter (keepJsonTweet s.retweetHandles)).map
            (convertJsonTweetToTweet s.mainHandle))
        isLoaded := true }
    | none =>
      { s with tweets := getFallbackTweets s.mainHandle now, isLoaded := true }

/-- Model of `AIService.getAllTweets`: load, then return the cached corpus. -/
def getAllTweets (s : AIService) (raw : Option (List JsonTweet)) (now : Int) :
    List Tweet × AIService :=
  let s₁ := loadJsonData s raw now
  (s₁.tweets, s₁)

/-- Model of `AIService.getTweetsByKeyword` (text or author contains the
lowercased keyword). -/
def getTweetsByKeyword (s : AIService) (raw : Option (List JsonTweet)) (now : Int)
    (keyword : String) : List Tweet × AIService :=
  let s₁ := loadJsonData s raw now
  let searchTerm := strToLower keyword
  (s₁.tweets.filter (fun tweet =>
    containsSub (strToLower tweet.text) searchTerm ||
      containsSub (strToLower tweet.author) searchTerm), s₁)

/-- Model of `AIService.getRecentTweets`. -/
def getRecentTweets (s : AIService) (raw : Option (List JsonTweet)) (now : Int)
    (count : Nat := 10) : List Tweet × AIService :=
  let s₁ := loadJsonData s raw now
  (s₁.tweets.take count, s₁)

/-- Return value of `getTweetStats`; the two `Date` fields are epoch
milliseconds. -/
structure TweetStats where
  totalTweets : Nat
  oldestTweet : Option Int
  newestTweet : Option Int
  averageLength : Nat
deriving DecidableEq

/-- Math.round on a non-negative rational: ⌊q + 1/2⌋ (half rounds up). -/
def mathRound (q : ℚ) : Nat := (Int.floor (q + 1 / 2)).toNat

/-- Model of `AIService.getTweetStats`. The source calls
`this.tweets.sort(...)` whose JS semantics sorts the array IN PLACE
(ascending by timestamp), so the returned state carries the re-sorted
corpus: this models the mutation of `this.tweets` faithfully. -/
def getTweetStats (s : AIService) (raw : Option (List JsonTweet)) (now : Int) :
    TweetStats × AIService :=
  let s₁ := loadJsonData s raw now
  if s₁.tweets.isEmpty then
    ({ totalTweets := 0, oldestTweet := none, newestTweet := none,
       averageLength := 0 }, s₁)
  else
    let sortedTweets := sortByAsc (fun t => t.timestamp) s₁.tweets
    let totalLength := (sortedTweets.map (fun t => t.text.length)).sum
    let averageLength := mathRound ((totalLength : ℚ) / (sortedTweets.length : ℚ))
    ({ totalTweets := sortedTweets.length
       oldestTweet := some (sortedTweets.head!).timestamp
       newestTweet := some (sortedTweets.getLast!).timestamp
       averageLength := averageLength },
     { s₁ with tweets := sortedTweets })

/-- Model of `AIService.clearMemory`. -/
def clearMemory (s : AIService) : AIService :=
  { s with tweets := [], jsonData := [], isLoaded := false }

/-- One semantic-expansion rule as the spec describes it: a fixed trigger
set and a fixed list of related terms appended when any trigger occurs. -/
structure ExpansionRule where
  triggers : List String
  adds : List String

/-- The four expansion rules of the source, in source order, as rule data. -/
def expansionRules : List ExpansionRule :=
  [{ triggers := ["release", "launch", "drop", "when"]
     adds := ["introducing", "coming", "going live", "launch", "release",
              "drop", "available", "announcing", "debut"] },
   { triggers := ["ninja"], adds := ["ninja", "kurosun ninja"] },
   { triggers := ["samurai"], adds := ["samurai", "kurosun samurai"] },
   { triggers := ["hana"], adds := ["hana"] }]

/-- Expansion terms of every fired rule, in rule order (spec formulation). -/
def firedExpansionTerms (message : String) : List String :=
  expansionRules.flatMap (fun rule =>
    if rule.triggers.any (fun trig => containsSub message trig) then rule.adds
    else [])

/-- Word tokens via the run-based tokenizer (spec-level formulation). -/
def wordTokensRuns (s : String) : List String := tokenizeChars s.toList

/-- Worker removing regex-matched quoted spans: `pending` holds the raw
characters (reversed) consumed since the last unmatched opening quote; a
closing quote with nonempty content discards the span, a closing quote with
empty content releases the first quote as an ordinary character, and at the
end of input any pending characters are ordinary. -/
def removeQuotedScan (pending : List Char) : List Char → List Char
  | [] => pending.reverse
  | c :: rest =>
    if pending.isEmpty then
      if c = '"' then removeQuotedScan [c] rest
      else c :: removeQuotedScan [] rest
    else
      if c = '"' then
        if pending.length = 1 then '"' :: removeQuotedScan [c] rest
        else removeQuotedScan [] rest
      else removeQuotedScan (c :: pending) rest

/-- The string with every regex-matched quoted span (quotes and content)
removed and unmatched quote characters kept as ordinary characters: the
"unquoted portion" in the sense of claim C6. -/
def removeQuotedChars (l : List Char) : List Char := removeQuotedScan [] l

/-- Modelled from the spec (the wording of claim C6): term set whose word
tokens come from the UNQUOTED portion of the lowercased query only. -/
def extractSearchTermsClaimed (userMessage : String) : List String :=
  let message := strToLower userMessage
  let unquoted := (removeQuotedChars message.toList).asString
  dedupFirst (extractQuoted message ++ firedExpansionTerms message ++
    (wordTokens unquoted).filter
      (fun w => decide (w.length > 2) && !stopWords.contains w))

/-- Amended spec-level term set: word tokens come from the WHOLE lowercased
query (quoted portions included), otherwise as the claim describes. -/
def extractSearchTermsAmended (userMessage : String) : List String :=
  let message := strToLower userMessage
  dedupFirst (extractQuoted message ++ firedExpansionTerms message ++
    (wordTokensRuns message).filter
      (fun w => decide (w.length > 2) && !stopWords.contains w))

section SortLemmas

variable {α β : Type} [LinearOrder β] (key : α → β)

/-- Inserting is a permutation of consing. -/
theorem insertByDesc_perm (a : α) (l : List α) :
    List.Perm (insertByDesc key a l) (a :: l) := by
  induction l with
  | nil => simp [insertByDesc]
  | cons u rest ih =>
    by_cases h : key a < key u
    · simp only [insertByDesc, if_pos h]
      exact (ih.cons u).trans (List.Perm.swap a u rest)
    · simp [insertByDesc, if_neg h]

/-- The stable descending sort permutes its input. -/
theorem sortByDesc_perm (l : List α) : List.Perm (sortByDesc key l) l := by
  induction l with
  | nil => simp [sortByDesc]
  | cons a l ih =>
    exact (insertByDesc_perm key a (sortByDesc key l)).trans (ih.cons a)

/-- Sorting a list whose head dominates every later key keeps the head. -/
theorem sortByDesc_cons_max (a : α) (l : List α)
    (h : ∀ b ∈ l, key b ≤ key a) :
    sortByDesc key (a :: l) = a :: sortByDesc key l := by
  show insertByDesc key a (sortByDesc key l) = _
  cases hm : sortByDesc key l with
  | nil => simp [insertByDesc]
  | cons u rest =>
    have hu : u ∈ l := (sortByDesc_perm key l).subset (hm ▸ List.mem_cons_self u rest)
    have : ¬ key a < key u := not_lt.mpr (h u hu)
    simp [insertByDesc, this]

/-- Sorting a sorted-descending block followed by a dominated tail keeps the
block as a prefix (stability of the sort). -/
theorem sortByDesc_append (l₁ l₂ : List α)
    (h₁ : l₁.Pairwise (fun a b => key b ≤ key a))
    (h₂ : ∀ a ∈ l₁, ∀ b ∈ l₂, key b ≤ key a) :
    sortByDesc key (l₁ ++ l₂) = l₁ ++ sortByDesc key l₂ := by
  induction l₁ with
  | nil => simp
  | cons a l₁ ih =>
    have hp := List.pairwise_cons.mp h₁
    have hmax : ∀ b ∈ l₁ ++ l₂, key b ≤ key a := by
      intro b hb
      rcases List.mem_append.mp hb with hb | hb
      · exact hp.1 b hb
      · exact h₂ a (List.mem_cons_self a l₁) b hb
    rw [List.cons_append, sortByDesc_cons_max key a (l₁ ++ l₂) hmax,
      ih hp.2 (fun x hx b hb => h₂ x (List.mem_cons_of_mem a hx) b hb)]
    simp

/-- A list already sorted descending is a fixed point of the sort. -/
theorem sortByDesc_eq_self (l : List α)
    (h : l.Pairwise (fun a b => key b ≤ key a)) :
    sortByDesc key l = l := by
  have := sortByDesc_append key l [] h (fun a _ b hb => absurd hb (List.not_mem_nil b))
  simpa [sortByDesc] using this

end SortLemmas

section DedupLemmas

/-- Every deduplicated tweet comes from the input. -/
theorem dedupGo_subset {seen : List String} {l : List Tweet} {x : Tweet}
    (hx : x ∈ dedupGo seen l) : x ∈ l := by
  induction l generalizing seen with
  | nil => simpa [dedupGo] using hx
  | cons t rest ih =>
    by_cases h : t.id ∈ seen
    · simp only [dedupGo, if_pos h] at hx
      exact List.mem_cons_of_mem t (ih hx)
    · simp only [dedupGo, if_neg h, List.mem_cons] at hx
      rcases hx with hx | hx
      · exact hx ▸ List.mem_cons_self t rest
      · exact List.mem_cons_of_mem t (ih hx)

/-- No deduplicated tweet has an already-seen id. -/
theorem dedupGo_id_not_seen {seen : List String} {l : List Tweet} {x : Tweet}
    (hx : x ∈ dedupGo seen l) : x.id ∉ seen := by
  induction l generalizing seen with
  | nil => simp [dedupGo] at hx
  | cons t rest ih =>
    by_cases h : t.id ∈ seen
    · exact ih (by simpa only [dedupGo, if_pos h] using hx)
    · simp only [dedupGo, if_neg h, List.mem_cons] at hx
      rcases hx with hx | hx
      · exact hx ▸ h
      · intro hmem
        exact ih hx (List.mem_cons_of_mem _ hmem)

/-- Deduplicated ids are pairwise distinct. -/
theorem dedupGo_id_nodup (seen : List String) (l : List Tweet) :
    ((dedupGo seen l).map (fun t => t.id)).Nodup := by
  induction l generalizing seen with
  | nil => simp [dedupGo]
  | cons t rest ih =>
    by_cases h : t.id ∈ seen
    · simpa only [dedupGo, if_pos h] using ih seen
    · simp only [dedupGo, if_neg h, List.map_cons, List.nodup_cons]
      refine ⟨?_, ih (t.id :: seen)⟩
      intro hmem
      rcases List.mem_map.mp hmem with ⟨y, hy, hid⟩
      exact dedupGo_id_not_seen hy (hid ▸ List.mem_cons_self _ _)

/-- Deduplicating a block of fresh, pairwise-distinct ids followed by a tail
keeps the block as a prefix; the surviving tail elements come from the tail
and carry ids outside both the seen set and the block. -/
theorem dedupGo_append (l₁ l₂ : List Tweet) (seen : List String)
    (hfresh : ∀ a ∈ l₁, a.id ∉ seen)
    (hnodup : (l₁.map (fun t => t.id)).Nodup) :
    ∃ g, dedupGo seen (l₁ ++ l₂) = l₁ ++ g ∧
      ∀ x ∈ g, x ∈ l₂ ∧ x.id ∉ seen ∧ x.id ∉ l₁.map (fun t => t.id) := by
  induction l₁ generalizing seen with
  | nil =>
    refine ⟨dedupGo seen l₂, by simp, ?_⟩
    intro x hx
    exact ⟨dedupGo_subset hx, dedupGo_id_not_seen hx, by simp⟩
  | cons t l₁ ih =>
    have ht : t.id ∉ seen := hfresh t (List.mem_cons_self t l₁)
    simp only [List.map_cons, List.nodup_cons] at hnodup
    have hfresh' : ∀ a ∈ l₁, a.id ∉ t.id :: seen := by
      intro a ha
      simp only [List.mem_cons]
      push_neg
      refine ⟨?_, hfresh a (List.mem_cons_of_mem t ha)⟩
      intro heq
      exact hnodup.1 (heq ▸ List.mem_map_of_mem (fun t => t.id) ha)
    obtain ⟨g, hg, hprop⟩ := ih (t.id :: seen) hfresh' hnodup.2
    refine ⟨g, ?_, ?_⟩
    · simpa [dedupGo, if_neg ht, hg] using congrArg (List.cons t) hg
    · intro x hx
      obtain ⟨hx₂, hxseen, hxl₁⟩ := hprop x hx
      simp only [List.mem_cons] at hxseen
      push_neg at hxseen
      refine ⟨hx₂, hxseen.2, ?_⟩
      simp only [List.map_cons, List.mem_cons]
      push_neg
      exact ⟨hxseen.1, hxl₁⟩

/-- An input tweet's id always survives deduplication when it is not yet
seen: some kept tweet carries the same id. -/
theorem dedupGo_id_mem {l : List Tweet} {x : Tweet} (seen : List String)
    (hx : x ∈ l) (hseen : x.id ∉ seen) :
    ∃ y ∈ dedupGo seen l, y.id = x.id := by
  induction l generalizing seen with
  | nil => simp at hx
  | cons t rest ih =>
    rcases List.mem_cons.mp hx with rfl | hx
    · by_cases h : x.id ∈ seen
      · exact absurd h hseen
      · exact ⟨x, by simp [dedupGo, if_neg h], rfl⟩
    · by_cases h : t.id ∈ seen
      · obtain ⟨y, hy, hid⟩ := ih seen hx hseen
        exact ⟨y, by simpa [dedupGo, if_pos h] using hy, hid⟩
      · by_cases hxt : x.id = t.id
        · exact ⟨t, by simp [dedupGo, if_neg h], hxt.symm⟩
        · obtain ⟨y, hy, hid⟩ := ih (t.id :: seen)  hx (by
            simp only [List.mem_cons]
            push_neg
            exact ⟨hxt, hseen⟩)
          exact ⟨y, by simp [dedupGo, if_neg h, List.mem_cons, hy], hid⟩

end DedupLemmas

section ScoreLemmas

/-- The phrase component is non-negative. -/
theorem phraseScore_nonneg (tweetText originalMessage : String) :
    0 ≤ phraseScore tweetText originalMessage := by
  apply List.sum_nonneg
  intro x hx
  rcases List.mem_map.mp hx with ⟨p, _, rfl⟩
  split <;> norm_num

/-- The per-term component is non-negative. -/
theorem termScore_nonneg (tweetText : String) (searchTerms : List String) :
    0 ≤ termScore tweetText searchTerms := by
  apply List.sum_nonneg
  intro x hx
  rcases List.mem_map.mp hx with ⟨term, _, rfl⟩
  simp only
  split
  · have h₁ : (0 : ℚ) ≤ (countOcc (strToLower term).toList tweetText.toList : ℚ) :=
      Nat.cast_nonneg _
    have h₂ : (0 : ℚ) ≤ (if hasWordBoundaryMatch tweetText (strToLower term) then (5 : ℚ) else 0) := by
      split <;> norm_num
    nlinarith
  · exact le_refl 0

/-- The engagement component is non-negative. -/
theorem engagementScore_nonneg (tweet : Tweet) : 0 ≤ engagementScore tweet := by
  unfold engagementScore
  apply le_min _ (by norm_num)
  positivity

/-- The recency component is non-negative. -/
theorem recencyScore_nonneg (tweet : Tweet) (now : Int) :
    0 ≤ recencyScore tweet now := by
  unfold recencyScore
  dsimp only
  split
  · exact le_max_left 0 _
  · exact le_refl 0

/-- The relevance score of `calculateRelevanceScore` is never negative. -/
theorem calculateRelevanceScore_nonneg (tweet : Tweet) (searchTerms : List String)
    (originalMessage : String) (now : Int) :
    0 ≤ calculateRelevanceScore tweet searchTerms originalMessage now := by
  unfold calculateRelevanceScore
  dsimp only
  have h₁ := phraseScore_nonneg (strToLower tweet.text) originalMessage
  have h₂ := termScore_nonneg (strToLower tweet.text) searchTerms
  have h₃ := engagementScore_nonneg tweet
  have h₄ := recencyScore_nonneg tweet now
  linarith

end ScoreLemmas

section SubsetLemmas

/-- A scored candidate comes from the corpus. -/
theorem searchResults_mem_fst {userMessage : String} {allTweets : List Tweet}
    {raw : Option String} {now : Int} {t : Tweet} {s : ℚ}
    (h : (t, s) ∈ searchResults userMessage allTweets raw now) : t ∈ allTweets := by
  unfold searchResults at h
  rcases List.mem_filterMap.mp h with ⟨a, ha, heq⟩
  dsimp only at heq
  rw [Option.ite_none_right_eq_some] at heq
  cases heq.2
  exact ha

/-- A top-150 relevant tweet comes from the corpus. -/
theorem topRelevantTweets_subset {userMessage : String} {allTweets : List Tweet}
    {raw : Option String} {now : Int} {t : Tweet}
    (h : t ∈ topRelevantTweets userMessage allTweets raw now) : t ∈ allTweets := by
  unfold topRelevantTweets at h
  rcases List.mem_map.mp h with ⟨p, hp, rfl⟩
  have hp₂ := (sortByDesc_perm (fun r : Tweet × ℚ => r.2) _).subset
    (List.take_subset 150 _ hp)
  exact searchResults_mem_fst (by exact_mod_cast hp₂)

/-- On a corpus with pairwise-distinct ids, the id determines the tweet. -/
theorem id_inj_of_nodup {l : List Tweet}
    (h : (l.map (fun t => t.id)).Nodup) {x y : Tweet}
    (hx : x ∈ l) (hy : y ∈ l) (hid : x.id = y.id) : x = y := by
  induction l with
  | nil => simp at hx
  | cons a rest ih =>
    simp only [List.map_cons, List.nodup_cons] at h
    rcases List.mem_cons.mp hx with hxa | hx2
    · rcases List.mem_cons.mp hy with hya | hy2
      · exact hxa.trans hya.symm
      · subst hxa
        refine absurd ?_ h.1
        rw [hid]
        exact List.mem_map_of_mem (fun t => t.id) hy2
    · rcases List.mem_cons.mp hy with hya | hy2
      · subst hya
        refine absurd ?_ h.1
        rw [← hid]
        exact List.mem_map_of_mem (fun t => t.id) hx2
      · exact ih h.2 hx2 hy2

end SubsetLemmas

/-- A non-empty corpus never renders the empty-corpus message: the assembled
context starts with a longer fixed header. -/
theorem buildSmartContext_ne_empty_msg {userMessage : String} {tweets : List Tweet}
    {raw : Option String} {now : Int} {mainHandle : String} {fmtDate : Int → String}
    (h : tweets ≠ []) :
    buildSmartContext userMessage tweets raw now mainHandle fmtDate ≠
      "No tweets available in memory." := by
  intro heq
  rw [buildSmartContext] at heq
  rw [if_neg (by simpa using h)] at heq
  have hlen := congrArg String.length heq
  simp only [String.length_append] at hlen
  have h₁ : ("Complete Twitter history from @" : String).length = 31 := by decide
  have h₂ : ("No tweets available in memory." : String).length = 30 := by decide
  omega

/-- The accumulator tokenizer agrees with the direct run tokenizer: with an
open run `acc` (reversed), the first emitted token is the run completed by
the leading word characters of the rest. -/
theorem tokAcc_eq (l : List Char) : ∀ acc : List Char,
    tokAcc acc l =
      if acc.isEmpty then tokenizeChars l
      else (acc.reverse ++ l.takeWhile isWordChar).asString ::
        tokenizeChars (l.dropWhile isWordChar) := by
  induction l with
  | nil =>
    intro acc
    by_cases h : acc.isEmpty <;> simp [tokAcc, tokenizeChars, h]
  | cons c rest ih =>
    intro acc
    by_cases hw : isWordChar c
    · have hne : ((c :: acc).isEmpty) = false := by simp
      by_cases h : acc.isEmpty
      · have hacc : acc = [] := by simpa using h
        subst hacc
        simp only [tokAcc, hw, if_true, if_pos, ih, hne, if_false,
          List.isEmpty_nil]
        simp [tokenizeChars, hw, List.takeWhile_cons, List.dropWhile_cons]
      · simp only [tokAcc, hw, if_true, ih, hne, if_false, if_neg h]
        simp [List.takeWhile_cons, List.dropWhile_cons, hw]
    · by_cases h : acc.isEmpty
      · have hacc : acc = [] := by simpa using h
        subst hacc
        simp only [tokAcc, hw, if_false, List.isEmpty_nil, if_true, ih]
        simp [tokenizeChars, hw]
      · simp only [tokAcc, hw, if_false, if_neg h, ih, List.isEmpty_nil, if_true]
        simp [List.takeWhile_cons, List.dropWhile_cons, hw, tokenizeChars]

/-- The two tokenizer formulations agree. -/
theorem wordTokensRuns_eq (s : String) : wordTokensRuns s = wordTokens s := by
  unfold wordTokensRuns wordTokens
  simp [tokAcc_eq]

/-- The rule-based expansion agrees with the source's nested conditionals. -/
theorem firedExpansionTerms_eq (message : String) :
    firedExpansionTerms message = expansionTerms message := by
  unfold firedExpansionTerms expansionRules expansionTerms
  simp [List.any_cons, Bool.or_assoc]

/-- The raw scan with an empty term set finds nothing: no line matches. -/
theorem grepSearchJsonFile_nil_terms (raw : Option String) :
    grepSearchJsonFile raw [] = [] := by
  cases raw with
  | none => rfl
  | some fileContent =>
    unfold grepSearchJsonFile lineHasMatch
    dsimp only
    simp

/-- Candidacy characterization: a record enters the scored candidate list
iff it is in the corpus and either its relevance score is strictly positive
or its identifier is in the raw match set (the +50 boost is added before
the positivity test, and the relevance score is never negative). -/
theorem mem_searchResults_iff (userMessage : String) (allTweets : List Tweet)
    (raw : Option String) (now : Int) (t : Tweet) :
    t ∈ (searchResults userMessage allTweets raw now).map Prod.fst ↔
      t ∈ allTweets ∧
        (0 < calculateRelevanceScore t (extractSearchTerms userMessage) userMessage now ∨
          (grepSearchJsonFile raw (extractSearchTerms userMessage)).contains t.id = true) := by
  unfold searchResults
  constructor
  · intro h
    rcases List.mem_map.mp h with ⟨p, hp, hfst⟩
    rcases List.mem_filterMap.mp hp with ⟨a, ha, heq⟩
    dsimp only at heq
    rw [Option.ite_none_right_eq_some] at heq
    obtain ⟨hpos, heq₂⟩ := heq
    cases heq₂
    cases hfst
    refine ⟨ha, ?_⟩
    by_cases hb : (grepSearchJsonFile raw (extractSearchTerms userMessage)).contains a.id = true
    · exact Or.inr hb
    · left
      rw [if_neg hb, add_zero] at hpos
      exact hpos
  · rintro ⟨ht, hcond⟩
    apply List.mem_map.mpr
    refine ⟨(t, calculateRelevanceScore t (extractSearchTerms userMessage) userMessage now +
      (if (grepSearchJsonFile raw (extractSearchTerms userMessage)).contains t.id then 50
       else 0)), ?_, rfl⟩
    apply List.mem_filterMap.mpr
    refine ⟨t, ht, ?_⟩
    dsimp only
    rw [Option.ite_none_right_eq_some]
    refine ⟨?_, rfl⟩
    rcases hcond with hpos | hb
    · have hnn : (0 : ℚ) ≤
        (if (grepSearchJsonFile raw (extractSearchTerms userMessage)).contains t.id then 50
         else 0) := by
        split <;> norm_num
      linarith
    · rw [if_pos hb]
      have hnn := calculateRelevanceScore_nonneg t (extractSearchTerms userMessage) userMessage now
      linarith

section ClaimTheorems

/- Concrete evaluations below go through the `Decidable` instances; the
Batteries rational operations are restored to their default reducibility so
that the evaluator can unfold them (this does not change any definition). -/
set_option allowUnsafeReducibility true
attribute [local semireducible] Rat.mul Rat.sub Rat.div Rat.inv Rat.add

/-- C8: For every query, if the corpus is empty then the rendered context is
exactly the fixed empty-corpus message, independent of the query content and
of the raw store; the definition short-circuits before any scoring,
raw-scan, ranking or deduplication. -/
theorem C8_empty_corpus_message :
    ∀ (userMessage : String) (raw : Option String) (now : Int)
      (mainHandle : String) (fmtDate : Int → String),
      buildSmartContext userMessage [] raw now mainHandle fmtDate =
        "No tweets available in memory." := by
  intro userMessage raw now mainHandle fmtDate
  rfl

/-- C9: if reading the raw store fails, the raw scan returns the empty match
set (and, being total, raises nothing), and every candidate's score is the
plain relevance score: no record receives the raw-scan boost. -/
theorem C9_rawscan_failure_empty_and_no_boost :
    (∀ searchTerms : List String, grepSearchJsonFile none searchTerms = []) ∧
    (∀ (userMessage : String) (allTweets : List Tweet) (now : Int),
      searchResults userMessage allTweets none now =
        allTweets.filterMap (fun tweet =>
          let score :=
            calculateRelevanceScore tweet (extractSearchTerms userMessage) userMessage now
          if 0 < score then some (tweet, score) else none)) := by
  constructor
  · intro searchTerms
    rfl
  · intro userMessage allTweets now
    unfold searchResults grepSearchJsonFile
    simp

/-- Concrete loaded service used to exhibit the `getTweetStats` mutation:
a two-record corpus in newest-first order. -/
def svcC1 : AIService :=
  { tweets := [⟨"n", "newer", 2000000, "h", 0, 0, 0, none⟩,
               ⟨"o", "older", 1000000, "h", 0, 0, 0, none⟩]
    jsonData := [], isLoaded := true, mainHandle := "h", retweetHandles := [] }

/-- C1 (code bug): the keyword, recent and get-all read operations leave the
cached corpus untouched, but `getTweetStats` sorts `this.tweets` in place
ascending by timestamp, so after the call the cached sequence is reversed to
oldest-first — the stored corpus sequence and order are NOT preserved. -/
theorem C1_getTweetStats_mutates_corpus :
    ((getTweetsByKeyword svcC1 none 0 "x").2).tweets = svcC1.tweets ∧
    ((getRecentTweets svcC1 none 0).2).tweets = svcC1.tweets ∧
    ((getAllTweets svcC1 none 0).2).tweets = svcC1.tweets ∧
    ((getTweetStats svcC1 none 0).2).tweets =
      [⟨"o", "older", 1000000, "h", 0, 0, 0, none⟩,
       ⟨"n", "newer", 2000000, "h", 0, 0, 0, none⟩] ∧
    ((getTweetStats svcC1 none 0).2).tweets ≠ svcC1.tweets := by decide

/-- Zero-relevance tweet whose id is recovered by the raw scan. -/
def tweetC2 : Tweet := ⟨"a", "q", 0, "h", 0, 0, 0, none⟩

/-- Raw store content whose first line matches the term and whose second
line carries the id of `tweetC2`. -/
def rawC2 : String := "xyz\n\"id\": \"a\""

/-- C2 counterexample: a record whose relevance score (before the raw-scan
boost) is exactly 0 still becomes a ranking candidate — and even reaches the
final assembled set — because the +50 boost is applied BEFORE the strict
positivity test, contradicting the claim that only records with strictly
positive pre-boost score are candidates. -/
theorem C2_boost_before_threshold_cex :
    calculateRelevanceScore tweetC2 (extractSearchTerms "xyz") "xyz" 10000000000 = 0 ∧
    tweetC2 ∈ (searchResults "xyz" [tweetC2] (some rawC2) 10000000000).map Prod.fst ∧
    tweetC2 ∈ searchAllTweets "xyz" [tweetC2] (some rawC2) 10000000000 := by decide

/-- C2 (amended): a record is a ranking candidate iff its relevance score
plus the raw-scan boost — +50 when its identifier is in the raw match set,
added before the positivity test — is strictly positive; equivalently, iff
its relevance score is strictly positive or its identifier is in the raw
match set. -/
theorem C2_candidate_iff_positive_or_rawmatch :
    ∀ (userMessage : String) (allTweets : List Tweet) (raw : Option String)
      (now : Int) (t : Tweet),
      t ∈ (searchResults userMessage allTweets raw now).map Prod.fst ↔
        t ∈ allTweets ∧
          (0 < calculateRelevanceScore t (extractSearchTerms userMessage) userMessage now ∨
            (grepSearchJsonFile raw (extractSearchTerms userMessage)).contains t.id = true) := by
  intro userMessage allTweets raw now t
  exact mem_searchResults_iff userMessage allTweets raw now t

/-- C3: for every query, corpus, raw store and clock, the final assembled
record set contains at most 200 records and no two of its records share an
identifier: the id-nodup property established by the deduplicator is
preserved by the timestamp re-sort (a permutation) and the truncation
(a sublist). -/
theorem C3_final_set_bounded_and_nodup :
    ∀ (userMessage : String) (allTweets : List Tweet) (raw : Option String) (now : Int),
      (searchAllTweets userMessage allTweets raw now).length ≤ 200 ∧
      ((searchAllTweets userMessage allTweets raw now).map (fun t => t.id)).Nodup := by
  intro userMessage allTweets raw now
  unfold searchAllTweets
  constructor
  · exact List.length_take_le 200 _
  · have h₁ : ((deduplicateTweets (allTweets.take 75 ++
        topRelevantTweets userMessage allTweets raw now)).map (fun t => t.id)).Nodup :=
      dedupGo_id_nodup [] _
    have hperm := sortByDesc_perm (fun t : Tweet => t.timestamp)
      (deduplicateTweets (allTweets.take 75 ++ topRelevantTweets userMessage allTweets raw now))
    have h₂ : ((sortByDesc (fun t : Tweet => t.timestamp)
        (deduplicateTweets (allTweets.take 75 ++
          topRelevantTweets userMessage allTweets raw now))).map (fun t => t.id)).Nodup :=
      ((hperm.map (fun t => t.id)).nodup_iff).mpr h₁
    have hsub : ((sortByDesc (fun t : Tweet => t.timestamp)
        (deduplicateTweets (allTweets.take 75 ++
          topRelevantTweets userMessage allTweets raw now))).map (fun t => t.id)).take 200
        |>.Sublist ((sortByDesc (fun t : Tweet => t.timestamp)
        (deduplicateTweets (allTweets.take 75 ++
          topRelevantTweets userMessage allTweets raw now))).map (fun t => t.id)) :=
      List.take_sublist 200 _
    rw [List.map_take]
    exact h₂.sublist hsub

/-- C4: on a non-empty corpus sorted newest-first with pairwise-distinct
identifiers, the recency window (the first min(75, corpus size) records)
survives deduplication as a prefix, occupies the newest positions after the
stable timestamp re-sort, and therefore fully survives the 200-record
truncation: every window record appears in the final assembled set, at the
front. -/
theorem C4_recency_window_survives :
    ∀ (userMessage : String) (corpus : List Tweet) (raw : Option String) (now : Int),
      corpus ≠ [] →
      corpus.Pairwise (fun a b => b.timestamp ≤ a.timestamp) →
      (corpus.map (fun t => t.id)).Nodup →
      (searchAllTweets userMessage corpus raw now).take (corpus.take 75).length =
        corpus.take 75 ∧
      ∀ w ∈ corpus.take 75, w ∈ searchAllTweets userMessage corpus raw now := by
  intro userMessage corpus raw now _ hsort hnodup
  have hwnodup : ((corpus.take 75).map (fun t => t.id)).Nodup := by
    rw [List.map_take]
    exact hnodup.sublist (List.take_sublist 75 _)
  obtain ⟨g, hg, hprop⟩ :=
    dedupGo_append (corpus.take 75) (topRelevantTweets userMessage corpus raw now) []
      (fun a _ => List.not_mem_nil a.id) hwnodup
  have hgdrop : ∀ x ∈ g, x ∈ corpus.drop 75 := by
    intro x hx
    obtain ⟨hxtop, _, hxid⟩ := hprop x hx
    have hxc : x ∈ corpus := topRelevantTweets_subset hxtop
    rcases List.mem_append.mp ((List.take_append_drop 75 corpus).symm ▸ hxc) with hxw | hxd
    · exact absurd (List.mem_map_of_mem (fun t => t.id) hxw) hxid
    · exact hxd
  have hpair : ∀ a ∈ corpus.take 75, ∀ b ∈ corpus.drop 75, b.timestamp ≤ a.timestamp := by
    have := (List.take_append_drop 75 corpus).symm ▸ hsort
    exact (List.pairwise_append.mp this).2.2
  have hkey : ∀ a ∈ corpus.take 75, ∀ b ∈ g, b.timestamp ≤ a.timestamp :=
    fun a ha b hb => hpair a ha b (hgdrop b hb)
  have hwsort : (corpus.take 75).Pairwise (fun a b => b.timestamp ≤ a.timestamp) :=
    List.Pairwise.sublist (List.take_sublist 75 corpus) hsort
  have hsortapp :=
    sortByDesc_append (fun t : Tweet => t.timestamp) (corpus.take 75) g hwsort hkey
  have hfinal : searchAllTweets userMessage corpus raw now =
      corpus.take 75 ++ (sortByDesc (fun t : Tweet => t.timestamp) g).take
        (200 - (corpus.take 75).length) := by
    unfold searchAllTweets deduplicateTweets
    dsimp only
    rw [hg, hsortapp, List.take_append_eq_append_take,
      List.take_of_length_le ((List.length_take_le 75 corpus).trans (by norm_num))]
  constructor
  · rw [hfinal, List.take_append_eq_append_take, List.take_of_length_le (le_refl _),
      Nat.sub_self, List.take_zero, List.append_nil]
  · intro w hw
    rw [hfinal]
    exact List.mem_append_left _ hw

/-- Two-record newest-first corpus with distinct ids used to instantiate the
recency-window theorem. -/
def corpusC4 : List Tweet :=
  [⟨"a", "aa", 2000000, "h", 0, 0, 0, none⟩, ⟨"b", "bb", 1000000, "h", 0, 0, 0, none⟩]

/-- Witness for C4: on a concrete sorted two-record corpus, both window
records appear in the final assembled set. -/
theorem C4_recency_window_survives_witness :
    (⟨"a", "aa", 2000000, "h", 0, 0, 0, none⟩ : Tweet) ∈
      searchAllTweets "hi" corpusC4 none 10000000000 ∧
    (⟨"b", "bb", 1000000, "h", 0, 0, 0, none⟩ : Tweet) ∈
      searchAllTweets "hi" corpusC4 none 10000000000 := by
  have h := C4_recency_window_survives "hi" corpusC4 none 10000000000
    (by decide) (by decide) (by decide)
  exact ⟨h.2 _ (by decide), h.2 _ (by decide)⟩

/-- Newer record sharing the id "x". -/
def tweetW5 : Tweet := ⟨"x", "hello", 2000, "h", 0, 0, 0, none⟩

/-- Older phrase-matching record with the same id "x". -/
def tweetT5 : Tweet := ⟨"x", "the secret plan", 1000, "h", 0, 0, 0, none⟩

/-- C5 counterexample: a record whose text contains the quoted phrase
verbatim and which is within the top-150 by final score (it is the single
top-ranked candidate) does NOT appear in the final assembled set: a
newer recency-window record with the same identifier wins deduplication and
evicts it. -/
theorem C5_top150_phrase_dropped_cex :
    containsSub (strToLower tweetT5.text) "secret plan" = true ∧
    "secret plan" ∈ quotedPhrasesLower "\"secret plan\"" ∧
    tweetT5 ∈ topRelevantTweets "\"secret plan\"" [tweetW5, tweetT5] none 10000000000 ∧
    tweetT5 ∉ searchAllTweets "\"secret plan\"" [tweetW5, tweetT5] none 10000000000 := by
  decide

/-- C5 (amended): a record containing a quoted phrase of the query verbatim
scores at least 100 before the engagement and recency bonuses; and when the
corpus has pairwise-distinct identifiers, a record within the top-150 by
final score always survives deduplication into the combined set, and appears
in the final assembled set whenever that combined set has at most 200
records (otherwise the timestamp-descending truncation may still drop it). -/
theorem C5_phrase_score_and_dedup_survival :
    (∀ (tweet : Tweet) (originalMessage phrase : String) (searchTerms : List String),
      phrase ∈ quotedPhrasesLower originalMessage →
      containsSub (strToLower tweet.text) phrase = true →
      100 ≤ phraseScore (strToLower tweet.text) originalMessage +
        termScore (strToLower tweet.text) searchTerms) ∧
    (∀ (userMessage : String) (allTweets : List Tweet) (raw : Option String)
      (now : Int) (t : Tweet),
      (allTweets.map (fun t => t.id)).Nodup →
      t ∈ topRelevantTweets userMessage allTweets raw now →
      t ∈ deduplicateTweets
        (allTweets.take 75 ++ topRelevantTweets userMessage allTweets raw now) ∧
      ((deduplicateTweets (allTweets.take 75 ++
          topRelevantTweets userMessage allTweets raw now)).length ≤ 200 →
        t ∈ searchAllTweets userMessage allTweets raw now)) := by
  constructor
  · intro tweet originalMessage phrase searchTerms hp hc
    have hnn : ∀ x ∈ (quotedPhrasesLower originalMessage).map
        (fun ph => if containsSub (strToLower tweet.text) ph then (100 : ℚ) else 0),
        0 ≤ x := by
      intro x hx
      rcases List.mem_map.mp hx with ⟨ph, _, rfl⟩
      split <;> norm_num
    have hmem : (100 : ℚ) ∈ (quotedPhrasesLower originalMessage).map
        (fun ph => if containsSub (strToLower tweet.text) ph then (100 : ℚ) else 0) := by
      refine List.mem_map.mpr ⟨phrase, hp, ?_⟩
      rw [if_pos hc]
    have h₁ : (100 : ℚ) ≤ phraseScore (strToLower tweet.text) originalMessage :=
      List.single_le_sum hnn 100 hmem
    have h₂ := termScore_nonneg (strToLower tweet.text) searchTerms
    linarith
  · intro userMessage allTweets raw now t hnodup htop
    have htin : t ∈ allTweets := topRelevantTweets_subset htop
    have htmem : t ∈ allTweets.take 75 ++ topRelevantTweets userMessage allTweets raw now :=
      List.mem_append_right _ htop
    obtain ⟨y, hy, hyid⟩ := dedupGo_id_mem [] htmem (List.not_mem_nil t.id)
    have hyin : y ∈ allTweets := by
      rcases List.mem_append.mp (dedupGo_subset hy) with h₁ | h₂
      · exact List.take_subset 75 allTweets h₁
      · exact topRelevantTweets_subset h₂
    have hyt : y = t := id_inj_of_nodup hnodup hyin htin hyid
    have hmemdedup : t ∈ deduplicateTweets
        (allTweets.take 75 ++ topRelevantTweets userMessage allTweets raw now) := hyt ▸ hy
    refine ⟨hmemdedup, ?_⟩
    intro hlen
    unfold searchAllTweets
    dsimp only
    have hperm := sortByDesc_perm (fun t : Tweet => t.timestamp)
      (deduplicateTweets (allTweets.take 75 ++ topRelevantTweets userMessage allTweets raw now))
    rw [List.take_of_length_le (by rw [hperm.length_eq]; exact hlen)]
    exact hperm.mem_iff.mpr hmemdedup

/-- Phrase-matching single-record corpus used to instantiate the amended C5. -/
def tweetC5w : Tweet := ⟨"a", "the secret plan!", 1000, "h", 0, 0, 0, none⟩

/-- Witness for the amended C5 at a concrete record, query and corpus. -/
theorem C5_phrase_score_and_dedup_survival_witness :
    (100 ≤ phraseScore (strToLower tweetC5w.text) "find \"secret plan\" fast" +
      termScore (strToLower tweetC5w.text)
        (extractSearchTerms "find \"secret plan\" fast")) ∧
    tweetC5w ∈ deduplicateTweets ([tweetC5w].take 75 ++
      topRelevantTweets "find \"secret plan\" fast" [tweetC5w] none 10000000000) ∧
    tweetC5w ∈ searchAllTweets "find \"secret plan\" fast" [tweetC5w] none 10000000000 := by
  have h₁ := C5_phrase_score_and_dedup_survival.1 tweetC5w "find \"secret plan\" fast"
    "secret plan" (extractSearchTerms "find \"secret plan\" fast") (by decide) (by decide)
  have h₂ := C5_phrase_score_and_dedup_survival.2 "find \"secret plan\" fast"
    [tweetC5w] none 10000000000 tweetC5w (by decide) (by decide)
  exact ⟨h₁, h₂.1, h₂.2 (by decide)⟩

/-- C6 counterexample: for the query `"kitten party"` (with quotes), the
actual term set also contains the word tokens of the QUOTED text, while the
claimed construction (tokens of the unquoted portion only) yields just the
phrase: the two differ. -/
theorem C6_tokens_include_quoted_cex :
    extractSearchTerms "\"kitten party\"" = ["kitten party", "kitten", "party"] ∧
    extractSearchTermsClaimed "\"kitten party\"" = ["kitten party"] ∧
    extractSearchTerms "\"kitten party\"" ≠
      extractSearchTermsClaimed "\"kitten party\"" := by decide

/-- C6 (amended): for every query, the extracted term set equals the quoted
phrases of the lowercased query, then the expansion terms of every fired
rule in rule order, then the word tokens of the WHOLE lowercased query
(quoted portions included) longer than 2 characters and not stop words,
concatenated in that priority order and deduplicated keeping first
occurrences. -/
theorem C6_termset_structure :
    ∀ userMessage : String,
      extractSearchTerms userMessage = extractSearchTermsAmended userMessage := by
  intro userMessage
  unfold extractSearchTerms extractSearchTermsAmended
  dsimp only
  rw [firedExpansionTerms_eq, wordTokensRuns_eq]

/-- Recency window of 75 distinct zero-engagement old records. -/
def windowC7 : List Tweet :=
  (List.range 75).map (fun i =>
    ⟨"w" ++ toString i, "t", 2000000 - (i : Int) * 1000, "h", 0, 0, 0, none⟩)

/-- Old record outside the window with positive engagement. -/
def tweetC7 : Tweet := ⟨"old", "t", 1000, "h", 100, 0, 0, none⟩

/-- Corpus of 76 records: the window plus one engaged old record. -/
def corpusC7 : List Tweet := windowC7 ++ [tweetC7]

/-- C7 counterexample: the query `when` consists solely of stop words yet
fires an expansion rule, so its term set is NOT empty; and for the query
`the and or` (whose term set IS empty) a record outside the recency window
still enters the final assembled set through its engagement bonus, so the
context does not reduce to the recency-window-only result. -/
theorem C7_stopword_query_cex :
    (wordTokens "when").all (fun w => stopWords.contains w) = true ∧
    extractSearchTerms "when" ≠ [] ∧
    (wordTokens "the and or").all (fun w => stopWords.contains w) = true ∧
    extractSearchTerms "the and or" = [] ∧
    tweetC7 ∈ searchAllTweets "the and or" corpusC7 none 10000000000 ∧
    tweetC7 ∉ corpusC7.take 75 := by decide

/-- C7 (amended): a query with an empty extracted term set selects, beyond
the recency window, exactly the records with a strictly positive
engagement-plus-recency score; when every record outside the window scores
zero (no engagement, older than 30 days), the final assembled context set is
exactly the recency window. -/
theorem C7_empty_terms_window_only :
    ∀ (userMessage : String) (corpus : List Tweet) (raw : Option String) (now : Int),
      extractSearchTerms userMessage = [] →
      corpus.Pairwise (fun a b => b.timestamp ≤ a.timestamp) →
      (corpus.map (fun t => t.id)).Nodup →
      (∀ t ∈ corpus.drop 75, calculateRelevanceScore t [] userMessage now = 0) →
      searchAllTweets userMessage corpus raw now = corpus.take 75 := by
  intro userMessage corpus raw now hterms hsort hnodup hdrop
  have htopw : ∀ x ∈ topRelevantTweets userMessage corpus raw now, x ∈ corpus.take 75 := by
    intro x hx
    have hcand : x ∈ (searchResults userMessage corpus raw now).map Prod.fst := by
      unfold topRelevantTweets at hx
      rcases List.mem_map.mp hx with ⟨p, hp, rfl⟩
      exact List.mem_map.mpr
        ⟨p, (sortByDesc_perm _ _).subset (List.take_subset _ _ hp), rfl⟩
    have hchar := (mem_searchResults_iff userMessage corpus raw now x).mp hcand
    rcases hchar.2 with hpos | hcont
    · rcases List.mem_append.mp
        ((List.take_append_drop 75 corpus).symm ▸ hchar.1) with hw | hd
      · exact hw
      · rw [hterms, hdrop x hd] at hpos
        exact absurd hpos (lt_irrefl 0)
    · rw [hterms, grepSearchJsonFile_nil_terms] at hcont
      simp at hcont
  have hwnodup : ((corpus.take 75).map (fun t => t.id)).Nodup := by
    rw [List.map_take]
    exact hnodup.sublist (List.take_sublist 75 _)
  obtain ⟨g, hg, hprop⟩ :=
    dedupGo_append (corpus.take 75) (topRelevantTweets userMessage corpus raw now) []
      (fun a _ => List.not_mem_nil a.id) hwnodup
  have hgnil : g = [] := by
    cases g with
    | nil => rfl
    | cons x rest =>
      obtain ⟨hxtop, _, hxid⟩ := hprop x (List.mem_cons_self _ _)
      exact absurd (List.mem_map_of_mem (fun t => t.id) (htopw x hxtop)) hxid
  have hwsort : (corpus.take 75).Pairwise (fun a b => b.timestamp ≤ a.timestamp) :=
    List.Pairwise.sublist (List.take_sublist 75 corpus) hsort
  unfold searchAllTweets
  dsimp only
  rw [show deduplicateTweets (corpus.take 75 ++
      topRelevantTweets userMessage corpus raw now) = corpus.take 75 ++ g from hg,
    hgnil, List.append_nil,
    sortByDesc_eq_self (fun t : Tweet => t.timestamp) (corpus.take 75) hwsort,
    List.take_of_length_le ((List.length_take_le 75 corpus).trans (by norm_num))]

/-- One-record corpus with engagement, entirely inside the recency window. -/
def corpusC7w : List Tweet := [⟨"a", "x", 5, "h", 3, 0, 0, none⟩]

/-- Witness for the amended C7 at a concrete stop-word query and corpus. -/
theorem C7_empty_terms_window_only_witness :
    extractSearchTerms "the and or" = [] ∧
    searchAllTweets "the and or" corpusC7w none 10000000000 = corpusC7w.take 75 := by
  refine ⟨by decide, C7_empty_terms_window_only "the and or" corpusC7w none 10000000000
    (by decide) (by decide) (by decide) (by decide)⟩

/-- C10: when reading or parsing the JSON corpus file fails on a not-yet
loaded service, the loader installs the built-in two-record fallback corpus,
marks loading complete, and raises nothing (the model is total); therefore
`getAllTweets` returns a non-empty list and the empty-corpus short-circuit
message cannot be produced after a load failure. -/
theorem C10_load_failure_installs_fallback :
    ∀ (s : AIService) (now : Int), s.isLoaded = false →
      (loadJsonData s none now).tweets = getFallbackTweets s.mainHandle now ∧
      (loadJsonData s none now).tweets.length = 2 ∧
      (loadJsonData s none now).isLoaded = true ∧
      (getAllTweets s none now).1 ≠ [] ∧
      ∀ (userMessage : String) (raw : Option String) (fmtDate : Int → String),
        buildSmartContext userMessage (getAllTweets s none now).1 raw now
          s.mainHandle fmtDate ≠ "No tweets available in memory." := by
  intro s now h
  have hload : loadJsonData s none now =
      { s with tweets := getFallbackTweets s.mainHandle now, isLoaded := true } := by
    unfold loadJsonData
    rw [h]
    simp
  have hne : (getAllTweets s none now).1 ≠ [] := by
    unfold getAllTweets
    rw [hload]
    simp [getFallbackTweets]
  refine ⟨by rw [hload], by rw [hload]; simp [getFallbackTweets], by rw [hload], hne, ?_⟩
  intro userMessage raw fmtDate
  exact buildSmartContext_ne_empty_msg hne

/-- Fresh unloaded service used to instantiate the load-failure theorem. -/
def svcC10 : AIService :=
  { tweets := [], jsonData := [], isLoaded := false, mainHandle := "h",
    retweetHandles := [] }

/-- Witness for C10 at a concrete unloaded service and clock. -/
theorem C10_load_failure_installs_fallback_witness :
    (loadJsonData svcC10 none 5).tweets.length = 2 ∧
    (getAllTweets svcC10 none 5).1 ≠ [] ∧
    buildSmartContext "q" (getAllTweets svcC10 none 5).1 none 5 "h"
      (fun _ => "d") ≠ "No tweets available in memory." := by
  have h := C10_load_failure_installs_fallback svcC10 5 rfl
  exact ⟨h.2.1, h.2.2.2.1, h.2.2.2.2 "q" none (fun _ => "d")⟩

end ClaimTheorems
